import Mathlib

/-!
Verification of the record store in `Library.cpp` (library management system).

The program keeps no persistent in-memory collection: every operation
(`loadBooks`, `listBooks`, `getNextId`, `updateBookStatus`, `deleteBookById`)
re-reads the backing CSV file, mutates a freshly loaded vector and, when it
mutates, rewrites the file in full (or, for the add path, appends one line).

We embed the program shallowly:
* C++ `std::string` becomes `List Char` (`Str`);
* the backing file becomes its raw character content (`Str`), or the list of
  lines produced by `getline` (`List Str`);
* `std::stoi` becomes `stoi : Str → Option Int` (`none` models the thrown
  `invalid_argument` / `out_of_range` exceptions);
* `Book::deserialize` becomes `Book.deserialize : Str → Option Book` (`none`
  models the thrown `runtime_error`).
-/

namespace LibrarySys

/-- Characters of a C++ `std::string`. -/
abbrev Str := List Char

/-- The character class used by `Book::trim`: `find_first_not_of(" \t")`. -/
def isSpaceTab (c : Char) : Bool := c = ' ' || c = '\t'

/-- The default-locale `isspace` class used by `std::stoi` when skipping
leading whitespace: space, `\t`, `\n`, vertical tab, form feed, `\r`. -/
def isCppSpace (c : Char) : Bool :=
  c = ' ' || c = '\t' || c = '\n' || c = Char.ofNat 11 || c = Char.ofNat 12 || c = '\r'

/-- `Book::trim`: strip leading and trailing spaces/tabs
(`substr(start, end - start + 1)` between `find_first_not_of(" \t")` and
`find_last_not_of(" \t")`; the all-blank string becomes `""`). -/
def trim (s : Str) : Str :=
  ((s.dropWhile isSpaceTab).reverse.dropWhile isSpaceTab).reverse

/-- Token accumulator for the `while (getline(iss, token, d))` loop.
`getline` yields the characters up to the next delimiter (or end of input);
a trailing delimiter does not produce a final empty token, because the next
`getline` call immediately hits end-of-stream and fails. -/
def splitAcc (d : Char) (acc : Str) : Str → List Str
  | [] => [acc]
  | c :: rest =>
    if c = d then
      if rest = [] then [acc] else acc :: splitAcc d [] rest
    else splitAcc d (acc ++ [c]) rest

/-- Split a string on a delimiter with C++ `getline` semantics
(an empty input yields no tokens at all). -/
def splitCh (d : Char) (s : Str) : List Str :=
  if s = [] then [] else splitAcc d [] s

/-- Decimal digit character, as produced by `operator<<` on an `int`. -/
def digitChar (n : Nat) : Char :=
  match n with
  | 0 => '0' | 1 => '1' | 2 => '2' | 3 => '3' | 4 => '4'
  | 5 => '5' | 6 => '6' | 7 => '7' | 8 => '8' | _ => '9'

/-- Numeric value of a decimal digit character. -/
def digitVal (c : Char) : Nat := c.toNat - 48

/-- Decimal digit string of a natural number; `fuel` bounds the recursion
depth (any `fuel > n` gives the exact digits of `n`). -/
def natToStrAux : Nat → Nat → Str
  | 0, _ => []
  | fuel + 1, n =>
    if n < 10 then [digitChar n]
    else natToStrAux fuel (n / 10) ++ [digitChar (n % 10)]

/-- Decimal digit string of a natural number. -/
def natToStr (n : Nat) : Str := natToStrAux (n + 1) n

/-- Decimal rendering of a C++ `int` by `operator<<`. -/
def intToStr (i : Int) : Str :=
  if i < 0 then '-' :: natToStr i.natAbs else natToStr i.natAbs

/-- Digit-run parser backing `stoi`: takes the maximal digit prefix,
fails (`invalid_argument`) when it is empty, applies the sign, and fails
(`out_of_range`) when the value does not fit in a 32-bit `int`. -/
def stoiDigits (r : Str) (neg : Bool) : Option Int :=
  let ds := r.takeWhile Char.isDigit
  if ds = [] then none
  else
    let n : Nat := ds.foldl (fun a c => a * 10 + digitVal c) 0
    let v : Int := if neg then -(n : Int) else (n : Int)
    if v < -2147483648 ∨ 2147483647 < v then none else some v

/-- `std::stoi` (base 10): skip leading whitespace, read an optional sign and
then a maximal nonempty digit run (trailing characters are ignored);
`none` models the thrown `invalid_argument` / `out_of_range`. -/
def stoi (s : Str) : Option Int :=
  match s.dropWhile isCppSpace with
  | [] => none
  | c :: cs =>
    if c = '-' then stoiDigits cs true
    else if c = '+' then stoiDigits cs false
    else stoiDigits (c :: cs) false

/-- One catalog entry (`class Book`, the one concrete `LibraryItem`). -/
structure Book where
  id : Int
  title : Str
  author : Str
  checkedOut : Bool
deriving DecidableEq

/-- The literal status token written for a checked-out book. -/
def yesTok : Str := ['Y', 'e', 's']

/-- The literal status token written for an available book. -/
def noTok : Str := ['N', 'o']

/-- `Book::serialize`:
`oss << id << ", " << title << ", " << author << ", " << (isCheckedOut ? "Yes" : "No")`. -/
def Book.serialize (b : Book) : Str :=
  intToStr b.id ++ [',', ' '] ++ b.title ++ [',', ' '] ++ b.author ++ [',', ' '] ++
    (if b.checkedOut then yesTok else noTok)

/-- `Book::deserialize`: split the line on commas (`getline` loop), trim each
token, require exactly 4 fields, parse the id with `stoi`, and compare the
status field against the literal `Yes`. `none` models the thrown exceptions. -/
def Book.deserialize (line : Str) : Option Book :=
  match (splitCh ',' line).map trim with
  | [p0, p1, p2, p3] =>
    match stoi p0 with
    | none => none
    | some i => some ⟨i, p1, p2, p3 == yesTok⟩
  | _ => none

/-- One iteration of the `loadBooks` read loop: blank lines are skipped
(`if (line.empty()) continue`), and lines whose decode throws are skipped. -/
def decodeLine (l : Str) : Option Book :=
  if l = [] then none else Book.deserialize l

/-- `loadBooks`: read the file line by line, keeping the lines that decode. -/
def loadBooks (lines : List Str) : List Book :=
  lines.filterMap decodeLine

/-- `overwriteDatabase`: truncate the file and write `serialize` of every
book, one per line, in collection order. -/
def overwriteDatabase (books : List Book) : List Str :=
  books.map Book.serialize

/-- `listBooks`: reload the collection from the file and print it; the value
listed is exactly the freshly loaded collection. -/
def listBooks (lines : List Str) : List Book :=
  loadBooks lines

/-- `getNextId`: reload the collection, fold `max` over the ids starting
from 0, and add 1. -/
def getNextId (lines : List Str) : Int :=
  (loadBooks lines).foldl (fun m b => max m b.id) 0 + 1

/-- The add branch of `main` (choice 1): read a title and author (no
validation whatsoever), build a book with id `getNextId`, and `saveBook`
appends its serialized line to the file. -/
def addBook (title author : Str) (lines : List Str) : List Str :=
  lines ++ [Book.serialize ⟨getNextId lines, title, author, false⟩]

/-- The scan-and-set loop of `updateBookStatus`: set the status of the first
book with the given id and report whether one was found (`break` after the
first match). -/
def setFirst (id : Int) (co : Bool) : List Book → Bool × List Book
  | [] => (false, [])
  | b :: rest =>
    if b.id = id then (true, { b with checkedOut := co } :: rest)
    else ((setFirst id co rest).1, b :: (setFirst id co rest).2)

/-- `updateBookStatus`: reload, set the first match (`checkOut()` /
`checkIn()` according to the flag), rewrite the file only when found. -/
def updateBookStatus (id : Int) (co : Bool) (lines : List Str) : Bool × List Str :=
  if (setFirst id co (loadBooks lines)).1 then
    (true, overwriteDatabase (setFirst id co (loadBooks lines)).2)
  else (false, lines)

/-- `deleteBookById`: reload, `remove_if`/`erase` every book with the given
id (keeping survivor order), rewrite the file only when at least one was
removed; the returned flag is `it != books.end()`. -/
def deleteBookById (id : Int) (lines : List Str) : Bool × List Str :=
  if (loadBooks lines).any (fun b => decide (b.id = id)) then
    (true, overwriteDatabase ((loadBooks lines).filter (fun b => decide (¬b.id = id))))
  else (false, lines)

/-- Convenience: the characters of a string literal. -/
def str (s : String) : Str := s.toList

/-- The fixed seed catalog of `seedLibrary`: 19 (title, author) pairs. -/
def seedCatalog : List (Str × Str) :=
  [ (str "Harry Potter and the Sorcerer’s Stone", str "JK Rowling"),
    (str "Harry Potter and the Chamber of Secrets", str "JK Rowling"),
    (str "Harry Potter and the Goblet of Fire", str "JK Rowling"),
    (str "Don Quixote", str "Miguel de Cervantes"),
    (str "The Hobbit", str "J.R.R. Tolkien"),
    (str "Wuthering Heights", str "Emily Bronte"),
    (str "The Lord of The Rings", str "J.R.R. Tolkien"),
    (str "Good Omens", str "Neil Gaiman"),
    (str "Coraline", str "Neil Gaiman"),
    (str "The Giver", str "Lois Lowry"),
    (str "Number the Stars", str "Lois Lowry"),
    (str "The Great Gatsby", str "F. Scott Fitzgerald"),
    (str "To Kill A Mockingbird", str "Harper Lee"),
    (str "The Hunger Games", str "Suzanne Collins"),
    (str "Catching Fire", str "Suzanne Collins"),
    (str "Game of Thrones", str "George R. R. Martin"),
    (str "The Wild Robot", str "Peter Brown"),
    (str "The Lightning Thief", str "Rick Riordan"),
    (str "The Last Olympian", str "Rick Riordan") ]

/-- The books written by `seedLibrary`: ids assigned sequentially from 1 in
catalog order (`int id = 1; ... Book b(id++, p.first, p.second, false)`). -/
def seedBooks : List Book :=
  seedCatalog.enum.map (fun p => ⟨(p.1 : Int) + 1, p.2.1, p.2.2, false⟩)

/-- The lines written by `seedLibrary` (`out << b.serialize() << "\n"`). -/
def seedLines : List Str :=
  seedBooks.map Book.serialize

/-- The raw character content `seedLibrary` writes to the file. -/
def seedContent : Str :=
  (seedLines.map (fun l => l ++ ['\n'])).flatten

/-- The lines `getline` produces from raw file content (split on `\n`;
a final newline does not yield an extra empty line). -/
def fileLines (content : Str) : List Str :=
  splitCh '\n' content

/-- `fileIsEmpty`: true when the file cannot be opened (missing) or when
`tellg() == 0` after seeking to the end (exactly zero bytes). The backing
file is modelled as `Option Str`: `none` when missing, otherwise its raw
character content. -/
def fileIsEmpty : Option Str → Bool
  | none => true
  | some content => content = []

/-- `seedLibrary`: when the file is missing or zero bytes, overwrite it with
the serialized seed catalog; otherwise leave it untouched. -/
def seedLibrary (f : Option Str) : Option Str :=
  if fileIsEmpty f then some seedContent else f

/-- A store mutation issued through the menu: add (choice 1) or delete
(choice 5). -/
inductive Op where
  | add (title author : Str)
  | del (id : Int)

/-- Apply one menu operation to the backing file. -/
def applyOp (lines : List Str) : Op → List Str
  | Op.add t a => addBook t a lines
  | Op.del i => (deleteBookById i lines).2

/-- Apply a finite sequence of menu operations to the backing file. -/
def runOps (lines : List Str) (ops : List Op) : List Str :=
  ops.foldl applyOp lines

/-- Whether the last character of a string is `d` (no trailing-token test
exists in the source; this is a proof-side helper for `splitAcc` lengths). -/
def lastIs (d : Char) : Str → Bool
  | [] => false
  | [c] => c = d
  | _ :: c :: rest => lastIs d (c :: rest)

/-- Modelled from the spec: the line grammar's `<id>` field, "a base-10
integer literal with no leading `+`" — an optional `-` followed by at least
one digit, and nothing else. The source has no such check; `stoi` is the
authority in the code. -/
def isIntLiteral (s : Str) : Bool :=
  match s with
  | '-' :: ds => !ds.isEmpty && ds.all Char.isDigit
  | ds => !ds.isEmpty && ds.all Char.isDigit

/-- Fields that survive the codec unchanged: no embedded comma, fixed by
`trim`, and an id representable as a C++ `int`. -/
def goodBook (b : Book) : Prop :=
  ',' ∉ b.title ∧ ',' ∉ b.author ∧ trim b.title = b.title ∧ trim b.author = b.author ∧
    -2147483648 ≤ b.id ∧ b.id ≤ 2147483647

instance (b : Book) : Decidable (goodBook b) := by
  unfold goodBook
  infer_instance

/-- A store whose ids are 1..19 (so the maximum id is 19), used for the
gap-reuse scenario. -/
def store19 : List Str :=
  (List.range 19).map (fun i => Book.serialize ⟨(i : Int) + 1, ['t'], ['u'], false⟩)

/-! ### Helper lemmas about characters and digit strings -/

lemma digitChar_isDigit (n : Nat) (h : n < 10) : (digitChar n).isDigit = true := by
  interval_cases n <;> decide

lemma digitVal_digitChar (n : Nat) (h : n < 10) : digitVal (digitChar n) = n := by
  interval_cases n <;> decide

lemma isDigit_ne (c : Char) (h : c.isDigit = true) :
    c ≠ ',' ∧ c ≠ '-' ∧ c ≠ '+' ∧ c ≠ ' ' ∧ c ≠ '\t' ∧ c ≠ '\n' ∧
      c ≠ Char.ofNat 11 ∧ c ≠ Char.ofNat 12 ∧ c ≠ '\r' := by
  refine ⟨?_, ?_, ?_, ?_, ?_, ?_, ?_, ?_, ?_⟩ <;> (rintro rfl; exact absurd h (by decide))

lemma isSpaceTab_false_of_isDigit (c : Char) (h : c.isDigit = true) : isSpaceTab c = false := by
  obtain ⟨-, -, -, h4, h5, -⟩ := isDigit_ne c h
  simp [isSpaceTab, h4, h5]

lemma isCppSpace_false_of_isDigit (c : Char) (h : c.isDigit = true) : isCppSpace c = false := by
  obtain ⟨-, -, -, h4, h5, h6, h7, h8, h9⟩ := isDigit_ne c h
  simp [isCppSpace, h4, h5, h6, h7, h8, h9]

lemma natToStrAux_sound (fuel : Nat) : ∀ n, n < fuel →
    (∀ c ∈ natToStrAux fuel n, c.isDigit = true) ∧ natToStrAux fuel n ≠ [] ∧
      (natToStrAux fuel n).foldl (fun a c => a * 10 + digitVal c) 0 = n := by
  induction fuel with
  | zero => intro n h; omega
  | succ fuel ih =>
    intro n h
    by_cases h10 : n < 10
    · simp only [natToStrAux, if_pos h10]
      refine ⟨?_, by simp, ?_⟩
      · intro c hc
        rw [List.mem_singleton] at hc
        exact hc ▸ digitChar_isDigit n h10
      · simp [digitVal_digitChar n h10]
    · have hd : n / 10 < fuel := by omega

      obtain ⟨ih1, ih2, ih3⟩ := ih (n / 10) hd
      simp only [natToStrAux, if_neg h10]
      refine ⟨?_, by simp, ?_⟩
      · intro c hc
        rcases List.mem_append.1 hc with h1 | h1
        · exact ih1 c h1
        · rw [List.mem_singleton] at h1
          exact h1 ▸ digitChar_isDigit (n % 10) (Nat.mod_lt _ (by omega))
      · rw [List.foldl_append, ih3]
        simp only [List.foldl]
        rw [digitVal_digitChar (n % 10) (Nat.mod_lt _ (by omega))]
        omega

lemma natToStr_digits (n : Nat) : ∀ c ∈ natToStr n, c.isDigit = true :=
  (natToStrAux_sound (n + 1) n (Nat.lt_succ_self n)).1

lemma natToStr_ne_nil (n : Nat) : natToStr n ≠ [] :=
  (natToStrAux_sound (n + 1) n (Nat.lt_succ_self n)).2.1

lemma natToStr_foldl (n : Nat) :
    (natToStr n).foldl (fun a c => a * 10 + digitVal c) 0 = n :=
  (natToStrAux_sound (n + 1) n (Nat.lt_succ_self n)).2.2

lemma takeWhile_all {p : Char → Bool} : ∀ s : Str, (∀ c ∈ s, p c = true) → s.takeWhile p = s := by
  intro s
  induction s with
  | nil => intro _; rfl
  | cons c cs ih =>
    intro h
    rw [List.takeWhile_cons, if_pos (h c (List.mem_cons_self c cs)),
      ih fun x hx => h x (List.mem_cons_of_mem c hx)]

lemma dropWhile_all_false {p : Char → Bool} (s : Str) (h : ∀ c ∈ s, p c = false) :
    s.dropWhile p = s := by
  cases s with
  | nil => rfl
  | cons c cs => simp [List.dropWhile_cons, h c (List.mem_cons_self c cs)]

lemma trim_eq_self_of (s : Str) (h : ∀ c ∈ s, isSpaceTab c = false) : trim s = s := by
  unfold trim
  rw [dropWhile_all_false s h,
    dropWhile_all_false s.reverse (fun c hc => h c (List.mem_reverse.1 hc)), List.reverse_reverse]

/-! ### Facts about `intToStr` and `stoi` -/

lemma intToStr_ne_nil (i : Int) : intToStr i ≠ [] := by
  unfold intToStr
  split
  · simp
  · exact natToStr_ne_nil i.natAbs

lemma mem_intToStr (i : Int) (c : Char) (hc : c ∈ intToStr i) : c = '-' ∨ c.isDigit = true := by
  unfold intToStr at hc
  split at hc
  · rcases List.mem_cons.1 hc with h | h
    · exact Or.inl h
    · exact Or.inr (natToStr_digits i.natAbs c h)
  · exact Or.inr (natToStr_digits i.natAbs c hc)

lemma comma_not_mem_intToStr (i : Int) : ',' ∉ intToStr i := by
  intro hc
  rcases mem_intToStr i ',' hc with h | h
  · exact absurd h (by decide)
  · exact absurd h (by decide)

lemma trim_intToStr (i : Int) : trim (intToStr i) = intToStr i := by
  refine trim_eq_self_of _ fun c hc => ?_
  rcases mem_intToStr i c hc with h | h
  · subst h; decide
  · exact isSpaceTab_false_of_isDigit c h

lemma stoiDigits_natToStr (n : Nat) (neg : Bool) :
    stoiDigits (natToStr n) neg =
      (if (if neg then -(n : Int) else (n : Int)) < -2147483648 ∨
          2147483647 < (if neg then -(n : Int) else (n : Int)) then none
       else some (if neg then -(n : Int) else (n : Int))) := by
  unfold stoiDigits
  rw [takeWhile_all _ (natToStr_digits n)]
  rw [if_neg (natToStr_ne_nil n), natToStr_foldl n]

lemma stoi_intToStr (i : Int) :
    stoi (intToStr i) = if i < -2147483648 ∨ 2147483647 < i then none else some i := by
  by_cases hneg : i < 0
  · have habs : -(i.natAbs : Int) = i := by omega
    unfold stoi intToStr
    rw [if_pos hneg]
    rw [List.dropWhile_cons, show isCppSpace '-' = false by decide]
    show stoiDigits (natToStr i.natAbs) true =
      if i < -2147483648 ∨ 2147483647 < i then none else some i
    rw [stoiDigits_natToStr]
    simp only [eq_self_iff_true, if_true, habs]
  · have habs : (i.natAbs : Int) = i := by omega
    have hne := natToStr_ne_nil i.natAbs
    unfold stoi intToStr
    rw [if_neg hneg]
    cases hs : natToStr i.natAbs with
    | nil => exact absurd hs hne
    | cons c cs =>
      have hcd : c.isDigit = true := natToStr_digits i.natAbs c (hs ▸ List.mem_cons_self c cs)
      obtain ⟨-, hm, hp, -⟩ := isDigit_ne c hcd
      rw [List.dropWhile_cons, isCppSpace_false_of_isDigit c hcd]
      simp only [Bool.false_eq_true, if_false, if_neg hm, if_neg hp]
      rw [← hs, stoiDigits_natToStr]
      simp [habs]

/-! ### Facts about `splitAcc` / `splitCh` -/

lemma splitAcc_no_delim (d : Char) : ∀ (s acc : Str), d ∉ s → splitAcc d acc s = [acc ++ s] := by
  intro s
  induction s with
  | nil => intro acc _; simp [splitAcc]
  | cons c cs ih =>
    intro acc h
    have hc : ¬c = d := by rintro rfl; exact h (List.mem_cons_self _ _)
    rw [splitAcc, if_neg hc, ih _ fun hm => h (List.mem_cons_of_mem _ hm)]
    simp

lemma splitAcc_append (d : Char) (x y : Str) (hx : d ∉ x) (hy : y ≠ []) :
    ∀ acc, splitAcc d acc (x ++ d :: y) = (acc ++ x) :: splitAcc d [] y := by
  induction x with
  | nil =>
    intro acc
    rw [List.nil_append, splitAcc, if_pos rfl, if_neg hy, List.append_nil]
  | cons c cs ih =>
    intro acc
    have hc : ¬c = d := by rintro rfl; exact hx (List.mem_cons_self _ _)
    rw [List.cons_append, splitAcc, if_neg hc,
      ih (fun hm => hx (List.mem_cons_of_mem _ hm)) (acc ++ [c])]
    simp

/-! ### The codec round trip -/

lemma status_comma_not_mem (co : Bool) : ',' ∉ (if co then yesTok else noTok) := by
  cases co <;> decide

lemma status_ne_nil (co : Bool) : (if co then yesTok else noTok) ≠ [] := by
  cases co <;> decide

lemma trim_status (co : Bool) : trim (if co then yesTok else noTok) = (if co then yesTok else noTok) := by
  cases co <;> decide

lemma serialize_ne_nil (b : Book) : b.serialize ≠ [] := by
  unfold Book.serialize
  simp [List.append_eq_nil, intToStr_ne_nil b.id]

lemma splitCh_serialize (b : Book) (ht : ',' ∉ b.title) (ha : ',' ∉ b.author) :
    splitCh ',' b.serialize =
      [intToStr b.id, ' ' :: b.title, ' ' :: b.author,
        ' ' :: (if b.checkedOut then yesTok else noTok)] := by
  have hassoc : b.serialize = intToStr b.id ++
      ',' :: ((' ' :: b.title) ++
        ',' :: ((' ' :: b.author) ++
          ',' :: (' ' :: (if b.checkedOut then yesTok else noTok)))) := by
    simp [Book.serialize]
  rw [splitCh, if_neg (serialize_ne_nil b), hassoc]
  rw [splitAcc_append ',' _ _ (comma_not_mem_intToStr b.id) (by simp)]
  rw [splitAcc_append ',' _ _ (by simp [ht]) (by simp)]
  rw [splitAcc_append ',' _ _ (by simp [ha]) (by simp)]
  rw [splitAcc_no_delim ',' _ [] (by simpa using status_comma_not_mem b.checkedOut)]
  simp

lemma trim_space_cons (s : Str) : trim (' ' :: s) = trim s := by
  unfold trim
  rw [List.dropWhile_cons, show isSpaceTab ' ' = true by decide]
  simp

lemma deserialize_parts (line p0 p1 p2 p3 : Str)
    (h : (splitCh ',' line).map trim = [p0, p1, p2, p3]) :
    Book.deserialize line =
      match stoi p0 with
      | none => none
      | some i => some ⟨i, p1, p2, p3 == yesTok⟩ := by
  unfold Book.deserialize
  rw [h]

lemma deserialize_serialize (b : Book) (ht : ',' ∉ b.title) (ha : ',' ∉ b.author)
    (htt : trim b.title = b.title) (hta : trim b.author = b.author)
    (hlo : -2147483648 ≤ b.id) (hhi : b.id ≤ 2147483647) :
    Book.deserialize b.serialize = some b := by
  have hparts : (splitCh ',' b.serialize).map trim =
      [intToStr b.id, b.title, b.author, if b.checkedOut then yesTok else noTok] := by
    rw [splitCh_serialize b ht ha]
    simp only [List.map_cons, List.map_nil]
    rw [trim_intToStr, trim_space_cons, trim_space_cons, trim_space_cons, htt, hta,
      trim_status b.checkedOut]
  rw [deserialize_parts _ _ _ _ _ hparts]
  rw [stoi_intToStr, if_neg (by omega)]
  obtain ⟨i, t, a, co⟩ := b
  cases co
  · rfl
  · rfl

lemma decodeLine_serialize_eq (b : Book) :
    decodeLine b.serialize = Book.deserialize b.serialize := by
  unfold decodeLine
  rw [if_neg (serialize_ne_nil b)]

/-! ### Token counts of a split line, and malformed lines -/

lemma lastIs_cons (d c : Char) (rest : Str) (h : rest ≠ []) :
    lastIs d (c :: rest) = lastIs d rest := by
  cases rest with
  | nil => exact absurd rfl h
  | cons c2 r2 => rfl

lemma lastIs_append (d : Char) (x y : Str) (hy : y ≠ []) : lastIs d (x ++ y) = lastIs d y := by
  induction x with
  | nil => rfl
  | cons c cs ih =>
    rw [List.cons_append, lastIs_cons d c _ (by simp [hy]), ih]

lemma splitAcc_length (d : Char) : ∀ (s acc : Str),
    (splitAcc d acc s).length = s.count d + (if lastIs d s then 0 else 1) := by
  intro s
  induction s with
  | nil => intro acc; simp [splitAcc, lastIs]
  | cons c rest ih =>
    intro acc
    by_cases hc : c = d
    · subst hc
      rw [splitAcc, if_pos rfl]
      by_cases hr : rest = []
      · subst hr; simp [lastIs, List.count_cons]
      · rw [if_neg hr, List.length_cons, ih [], lastIs_cons c c rest hr, List.count_cons_self]
        cases h : lastIs c rest <;> simp [h]
    · rw [splitAcc, if_neg hc, ih (acc ++ [c])]
      by_cases hr : rest = []
      · subst hr; simp [lastIs, List.count_cons, hc]
      · rw [lastIs_cons d c rest hr, List.count_cons_of_ne (fun h => hc h.symm)]

lemma splitCh_length (d : Char) (s : Str) (hs : s ≠ []) :
    (splitCh d s).length = s.count d + (if lastIs d s then 0 else 1) := by
  rw [splitCh, if_neg hs, splitAcc_length]

lemma serialize_count_comma (b : Book) :
    (b.serialize).count ',' = 3 + b.title.count ',' + b.author.count ',' := by
  unfold Book.serialize
  rw [List.count_append, List.count_append, List.count_append, List.count_append,
    List.count_append, List.count_append]
  rw [List.count_eq_zero.mpr (comma_not_mem_intToStr b.id),
    List.count_eq_zero.mpr (status_comma_not_mem b.checkedOut)]
  simp [List.count_cons]
  omega

lemma serialize_lastIs (b : Book) : lastIs ',' b.serialize = false := by
  unfold Book.serialize
  rw [lastIs_append ',' _ _ (status_ne_nil b.checkedOut)]
  cases b.checkedOut <;> decide

lemma deserialize_malformed (line : Str) (h : ((splitCh ',' line).map trim).length ≠ 4) :
    Book.deserialize line = none := by
  unfold Book.deserialize
  split
  · next p0 p1 p2 p3 heq => exact absurd (by simp [heq]) h
  · rfl

/-- Decoding a serialized book either fails or yields a book with the same id
(the id field of `serialize` is the text before the first comma, whatever the
title and author contain). -/
lemma decodeLine_serialize (b : Book) :
    decodeLine b.serialize = none ∨
      ∃ b', decodeLine b.serialize = some b' ∧ b'.id = b.id := by
  rw [decodeLine_serialize_eq]
  by_cases ht : ',' ∈ b.title
  · left
    apply deserialize_malformed
    rw [List.length_map, splitCh_length ',' _ (serialize_ne_nil b), serialize_count_comma,
      serialize_lastIs]
    have : 1 ≤ b.title.count ',' := List.count_pos_iff.mpr ht
    simp
    omega
  · by_cases ha : ',' ∈ b.author
    · left
      apply deserialize_malformed
      rw [List.length_map, splitCh_length ',' _ (serialize_ne_nil b), serialize_count_comma,
        serialize_lastIs]
      have : 1 ≤ b.author.count ',' := List.count_pos_iff.mpr ha
      simp
      omega
    · have hparts : (splitCh ',' b.serialize).map trim =
          [intToStr b.id, trim (' ' :: b.title), trim (' ' :: b.author),
            trim (' ' :: (if b.checkedOut then yesTok else noTok))] := by
        rw [splitCh_serialize b ht ha]
        simp only [List.map_cons, List.map_nil]
        rw [trim_intToStr]
      rw [deserialize_parts _ _ _ _ _ hparts]
      cases hstoi : stoi (intToStr b.id) with
      | none => left; rfl
      | some v =>
        have hv : v = b.id := by
          rw [stoi_intToStr] at hstoi
          split at hstoi
          · exact absurd hstoi (by simp)
          · exact (Option.some_inj.mp hstoi).symm
        right
        exact ⟨_, rfl, hv⟩

/-! ### Store-level lemmas: reloads, id maxima, uniqueness -/

lemma loadBooks_overwrite_sublist : ∀ books : List Book,
    ((loadBooks (overwriteDatabase books)).map Book.id).Sublist (books.map Book.id) := by
  intro books
  induction books with
  | nil => simp [loadBooks, overwriteDatabase]
  | cons b bs ih =>
    simp only [overwriteDatabase, List.map_cons] at ih ⊢
    rcases decodeLine_serialize b with hn | ⟨b', hb', hid⟩
    · simp only [loadBooks, List.filterMap_cons, hn] at ih ⊢
      exact ih.cons b.id
    · simp only [loadBooks, List.filterMap_cons, hb', List.map_cons] at ih ⊢
      rw [hid]
      exact ih.cons₂ b.id

lemma le_foldlMax : ∀ (l : List Book) (a : Int), a ≤ l.foldl (fun m b => max m b.id) a := by
  intro l
  induction l with
  | nil => intro a; exact le_refl a
  | cons b bs ih => intro a; exact le_trans (le_max_left a b.id) (ih (max a b.id))

lemma mem_le_foldlMax : ∀ (l : List Book) (a : Int) (b : Book), b ∈ l →
    b.id ≤ l.foldl (fun m x => max m x.id) a := by
  intro l
  induction l with
  | nil => intro a b hb; exact absurd hb (List.not_mem_nil b)
  | cons c cs ih =>
    intro a b hb
    rcases List.mem_cons.1 hb with h | h
    · subst h; exact le_trans (le_max_right a b.id) (le_foldlMax cs (max a b.id))
    · exact ih (max a c.id) b h

lemma foldlMax_mem : ∀ (l : List Book) (a : Int),
    l.foldl (fun m x => max m x.id) a = a ∨ ∃ b ∈ l, l.foldl (fun m x => max m x.id) a = b.id := by
  intro l
  induction l with
  | nil => intro a; exact Or.inl rfl
  | cons c cs ih =>
    intro a
    rcases ih (max a c.id) with h | ⟨b, hb, he⟩
    · rcases max_choice a c.id with hm | hm
      · left; rw [List.foldl_cons, h, hm]
      · right; exact ⟨c, List.mem_cons_self c cs, by rw [List.foldl_cons, h, hm]⟩
    · right; exact ⟨b, List.mem_cons_of_mem c hb, by rw [List.foldl_cons, he]⟩

lemma getNextId_gt (lines : List Str) (b : Book) (hb : b ∈ loadBooks lines) :
    b.id < getNextId lines := by
  unfold getNextId
  have := mem_le_foldlMax (loadBooks lines) 0 b hb
  omega

lemma nodup_addBook (t a : Str) (lines : List Str)
    (h : ((loadBooks lines).map Book.id).Nodup) :
    ((loadBooks (addBook t a lines)).map Book.id).Nodup := by
  unfold addBook
  simp only [loadBooks, List.filterMap_append] at h ⊢
  rcases decodeLine_serialize ⟨getNextId lines, t, a, false⟩ with hn | ⟨b', hb', hid⟩
  · simp only [List.filterMap_cons, List.filterMap_nil, hn, List.append_nil]
    exact h
  · simp only [List.filterMap_cons, List.filterMap_nil, hb', List.map_append, List.map_cons,
      List.map_nil]
    rw [List.nodup_append]
    refine ⟨h, List.nodup_singleton _, ?_⟩
    intro x hx hmem
    rw [List.mem_singleton] at hmem
    rcases List.mem_map.1 hx with ⟨b0, hb0, hbx⟩
    have hlt := getNextId_gt lines b0 hb0
    rw [hmem, hid] at hbx
    simp only at hbx
    omega

lemma nodup_deleteBook (i : Int) (lines : List Str)
    (h : ((loadBooks lines).map Book.id).Nodup) :
    ((loadBooks ((deleteBookById i lines).2)).map Book.id).Nodup := by
  unfold deleteBookById
  split
  · refine List.Nodup.sublist ?_ h
    exact (loadBooks_overwrite_sublist _).trans
      ((List.filter_sublist (loadBooks lines)).map Book.id)
  · exact h

lemma nodup_applyOp (lines : List Str) (op : Op)
    (h : ((loadBooks lines).map Book.id).Nodup) :
    ((loadBooks (applyOp lines op)).map Book.id).Nodup := by
  cases op with
  | add t a => exact nodup_addBook t a lines h
  | del i => exact nodup_deleteBook i lines h

lemma setFirst_not_found (id : Int) (co : Bool) : ∀ bs : List Book,
    (∀ b ∈ bs, b.id ≠ id) → setFirst id co bs = (false, bs) := by
  intro bs
  induction bs with
  | nil => intro _; rfl
  | cons b rest ih =>
    intro h
    rw [setFirst, if_neg (h b (List.mem_cons_self b rest)),
      ih fun x hx => h x (List.mem_cons_of_mem b hx)]

lemma setFirst_found (id : Int) (co : Bool) : ∀ (pre : List Book) (b : Book) (post : List Book),
    (∀ x ∈ pre, x.id ≠ id) → b.id = id →
    setFirst id co (pre ++ b :: post) =
      (true, pre ++ { b with checkedOut := co } :: post) := by
  intro pre
  induction pre with
  | nil =>
    intro b post _ hb
    rw [List.nil_append, setFirst, if_pos hb, List.nil_append]
  | cons c cs ih =>
    intro b post h hb
    rw [List.cons_append, setFirst, if_neg (h c (List.mem_cons_self c cs)),
      ih b post (fun x hx => h x (List.mem_cons_of_mem c hx)) hb]
    rfl

lemma loadBooks_overwrite_good : ∀ books : List Book, (∀ b ∈ books, goodBook b) →
    loadBooks (overwriteDatabase books) = books := by
  intro books
  induction books with
  | nil => intro _; rfl
  | cons b bs ih =>
    intro h
    obtain ⟨h1, h2, h3, h4, h5, h6⟩ := h b (List.mem_cons_self b bs)
    simp only [overwriteDatabase, List.map_cons, loadBooks, List.filterMap_cons,
      decodeLine_serialize_eq b, deserialize_serialize b h1 h2 h3 h4 h5 h6]
    have := ih fun x hx => h x (List.mem_cons_of_mem b hx)
    simp only [loadBooks, overwriteDatabase] at this
    rw [this]

/-! ## Claim theorems -/

/-- C1, counterexample: calling the add path with the exact empty string for
both title and author does not fail — the line `1, , , No` is appended to the
(here empty) backing file and the record `⟨1, "", "", false⟩` enters the
loaded collection. There is no `ValidationError` anywhere in the add path. -/
theorem addBook_empty_cex :
    addBook [] [] [] = [str "1, , , No"] ∧
    loadBooks (addBook [] [] []) = [⟨1, [], [], false⟩] ∧
    addBook [] [] [] ≠ [] := by decide

/-- C1, amended: `add` performs no validation at all. For every title and
author (including the empty string), a record with id `getNextId` and exactly
the given fields is appended to the file, and — whenever the fields survive
the codec (no commas, trim-fixed, id in `int` range) — the reloaded
collection is the old collection plus the new record. -/
theorem addBook_no_validation (t a : Str) (lines : List Str)
    (ht : ',' ∉ t) (htt : trim t = t) (ha : ',' ∉ a) (hta : trim a = a)
    (hlo : -2147483648 ≤ getNextId lines) (hhi : getNextId lines ≤ 2147483647) :
    loadBooks (addBook t a lines) = loadBooks lines ++ [⟨getNextId lines, t, a, false⟩] := by
  unfold addBook
  simp only [loadBooks, List.filterMap_append, List.filterMap_cons, List.filterMap_nil,
    decodeLine_serialize_eq ⟨getNextId lines, t, a, false⟩,
    deserialize_serialize ⟨getNextId lines, t, a, false⟩ ht ha htt hta hlo hhi]

/-- C1, witness: adding the empty title/author to the one-record store with
id 4 appends the record `⟨5, "", "", false⟩`. -/
theorem addBook_no_validation_witness :
    loadBooks (addBook [] [] [str "4, m, n, No"]) =
      loadBooks [str "4, m, n, No"] ++ [⟨5, [], [], false⟩] :=
  addBook_no_validation [] [] [str "4, m, n, No"]
    (by decide) (by decide) (by decide) (by decide) (by decide) (by decide)

/-- C2, counterexample: `listBooks` reads the backing file on every call —
its result varies with the file contents (there is no in-memory collection
that could determine it), so "list() … without reading the backing file" is
false of the code. -/
theorem listBooks_file_dependent_cex :
    listBooks [str "1, a, b, No"] = [⟨1, ['a'], ['b'], false⟩] ∧
    listBooks [str "1, a, b, No"] ≠ listBooks [] := by decide

/-- C2, amended: `list()` reloads from the backing file on every call; its
result is fully determined by the file's contents. A file just rewritten
from a collection of codec-safe records lists back exactly that collection,
in order, and an empty file yields the empty (non-error) result. -/
theorem listBooks_reload (books : List Book) (h : ∀ b ∈ books, goodBook b) :
    listBooks (overwriteDatabase books) = books ∧ listBooks [] = [] :=
  ⟨loadBooks_overwrite_good books h, rfl⟩

/-- C2, witness: the rewritten one-record store lists back that record. -/
theorem listBooks_reload_witness :
    listBooks (overwriteDatabase [⟨3, ['g'], ['h'], true⟩]) = [⟨3, ['g'], ['h'], true⟩] ∧
      listBooks [] = [] :=
  listBooks_reload [⟨3, ['g'], ['h'], true⟩] (by decide)

/-- C5, counterexample: the record `⟨1, "T ", "A", false⟩` has a non-empty,
comma-free title and author, yet `decode(encode(r)) ≠ r`: the decoder trims
the trailing space from the title. -/
theorem roundtrip_trailing_space_cex :
    (['T', ' '] : Str) ≠ [] ∧ ',' ∉ (['T', ' '] : Str) ∧
    (['A'] : Str) ≠ [] ∧ ',' ∉ (['A'] : Str) ∧
    Book.deserialize (Book.serialize ⟨1, ['T', ' '], ['A'], false⟩) ≠
      some ⟨1, ['T', ' '], ['A'], false⟩ ∧
    Book.deserialize (Book.serialize ⟨1, ['T', ' '], ['A'], false⟩) =
      some ⟨1, ['T'], ['A'], false⟩ := by decide

/-- C5, amended: for any record whose title and author are non-empty, contain
no comma, and carry no leading/trailing spaces or tabs (i.e. are fixed by
`trim`), and whose id fits in a 32-bit `int`, `decode(encode(r)) = r`. -/
theorem decode_encode_roundtrip (b : Book) (_h1 : b.title ≠ []) (_h2 : b.author ≠ [])
    (ht : ',' ∉ b.title) (ha : ',' ∉ b.author)
    (htt : trim b.title = b.title) (hta : trim b.author = b.author)
    (hlo : -2147483648 ≤ b.id) (hhi : b.id ≤ 2147483647) :
    Book.deserialize b.serialize = some b :=
  deserialize_serialize b ht ha htt hta hlo hhi

/-- C5, witness: the round trip at the record `⟨2, "D", "F", true⟩`. -/
theorem decode_encode_roundtrip_witness :
    Book.deserialize (Book.serialize ⟨2, ['D'], ['F'], true⟩) = some ⟨2, ['D'], ['F'], true⟩ :=
  decode_encode_roundtrip ⟨2, ['D'], ['F'], true⟩
    (by decide) (by decide) (by decide) (by decide) (by decide) (by decide) (by decide) (by decide)

/-- C10: the decoder enforces none of the data-model invariants. The line
`0, , , No` decodes successfully to a record with non-positive id and empty
title and author, and a load of a file containing that line places exactly
that invariant-violating record in the store. -/
theorem deserialize_no_invariants :
    Book.deserialize (str "0, , , No") = some ⟨0, [], [], false⟩ ∧
    loadBooks [str "0, , , No"] = [⟨0, [], [], false⟩] ∧
    (∀ b ∈ loadBooks [str "0, , , No"], ¬(1 ≤ b.id) ∧ b.title = [] ∧ b.author = []) := by decide

/-- C3: on a store whose loaded records all have positive ids (the data-model
invariant), the id a successful add assigns — `getNextId` — is 1 on the empty
collection and `max(existing ids) + 1` otherwise (it strictly dominates every
id and is attained as some id plus one). In particular, after `deleteById 3`
on the store with ids 1..19 the next add assigns id 20 and appends exactly
the record `⟨20, "X", "Y", false⟩` — never the freed id 3. -/
theorem getNextId_spec (lines : List Str) (h : ∀ b ∈ loadBooks lines, 1 ≤ b.id) :
    ((loadBooks lines = [] → getNextId lines = 1) ∧
     (∀ b ∈ loadBooks lines, b.id + 1 ≤ getNextId lines) ∧
     (loadBooks lines ≠ [] → ∃ b ∈ loadBooks lines, getNextId lines = b.id + 1)) ∧
    getNextId ((deleteBookById 3 store19).2) = 20 ∧
    addBook (str "X") (str "Y") ((deleteBookById 3 store19).2) =
      (deleteBookById 3 store19).2 ++ [Book.serialize ⟨20, str "X", str "Y", false⟩] := by
  refine ⟨⟨?_, ?_, ?_⟩, by decide, by decide⟩
  · intro he
    unfold getNextId
    rw [he]
    rfl
  · intro b hb
    have := getNextId_gt lines b hb
    omega
  · intro hne
    unfold getNextId
    rcases foldlMax_mem (loadBooks lines) 0 with h0 | ⟨b, hb, he⟩
    · exfalso
      obtain ⟨b0, hb0⟩ := List.exists_mem_of_ne_nil _ hne
      have h1 := h b0 hb0
      have h2 := mem_le_foldlMax (loadBooks lines) 0 b0 hb0
      omega
    · exact ⟨b, hb, by rw [he]⟩

/-- C3, witness: after `deleteById 3` on the store with ids 1..19 (all
positive), `getNextId` is some surviving id plus one (namely 19 + 1 = 20). -/
theorem getNextId_spec_witness :
    ∃ b ∈ loadBooks ((deleteBookById 3 store19).2),
      getNextId ((deleteBookById 3 store19).2) = b.id + 1 :=
  ((getNextId_spec ((deleteBookById 3 store19).2) (by decide)).1.2.2 (by decide))

/-- C4: starting from any backing file whose loaded records have pairwise
distinct ids, every finite sequence of menu add/delete operations leaves the
listed ids pairwise distinct. -/
theorem addDelete_ids_nodup (lines : List Str)
    (h : ((loadBooks lines).map Book.id).Nodup) (ops : List Op) :
    ((loadBooks (runOps lines ops)).map Book.id).Nodup := by
  induction ops generalizing lines with
  | nil => exact h
  | cons op rest ih => exact ih (applyOp lines op) (nodup_applyOp lines op h)

/-- C4, witness: an add followed by a delete on a concrete one-record store
keeps the ids pairwise distinct. -/
theorem addDelete_ids_nodup_witness :
    ((loadBooks (runOps [str "1, t, u, No"]
        [Op.add (str "x") (str "y"), Op.del 1])).map Book.id).Nodup :=
  addDelete_ids_nodup [str "1, t, u, No"] (by decide) [Op.add (str "x") (str "y"), Op.del 1]

/-- C6, counterexample: the line `+5, T, A, Yes` splits into exactly 4
trimmed fields whose id field `+5` is not a base-10 integer literal with no
leading `+`, yet `decode` succeeds (with id 5) — so "fails exactly when …
the id field is not a valid base-10 integer literal (with no leading `+`)"
is false of the code. -/
theorem deserialize_leading_plus_cex :
    (splitCh ',' (str "+5, T, A, Yes")).map trim = [str "+5", str "T", str "A", str "Yes"] ∧
    isIntLiteral (str "+5") = false ∧
    Book.deserialize (str "+5, T, A, Yes") = some ⟨5, ['T'], ['A'], true⟩ ∧
    isIntLiteral (str "12abc") = false ∧
    Book.deserialize (str "12abc, T, A, Yes") = some ⟨12, ['T'], ['A'], true⟩ := by decide

/-- C6, amended: `decode` fails exactly when the comma-split, field-trimmed
line does not have exactly 4 fields or `stoi` rejects the id field (no digit
after the optional sign, or out of `int` range); `stoi` accepts a leading
`+` or `-` and ignores trailing non-digits. On success the status field is
compared leniently against the literal `Yes`: any other value (including a
malformed one) yields `checkedOut = false`, never a failure. -/
theorem deserialize_error_spec (line : Str) :
    (Book.deserialize line = none ↔
      ¬∃ p0 p1 p2 p3, (splitCh ',' line).map trim = [p0, p1, p2, p3] ∧
        (stoi p0).isSome = true) ∧
    (∀ p0 p1 p2 p3 i, (splitCh ',' line).map trim = [p0, p1, p2, p3] → stoi p0 = some i →
      Book.deserialize line = some ⟨i, p1, p2, p3 == yesTok⟩) := by
  constructor
  · constructor
    · rintro hn ⟨p0, p1, p2, p3, hp, hs⟩
      obtain ⟨i, hi⟩ := Option.isSome_iff_exists.1 hs
      rw [deserialize_parts _ _ _ _ _ hp, hi] at hn
      exact absurd hn (by simp)
    · intro hne
      rcases hp : (splitCh ',' line).map trim with _ | ⟨p0, _ | ⟨p1, _ | ⟨p2, _ | ⟨p3, _ | ⟨p4, rest⟩⟩⟩⟩⟩
      · exact deserialize_malformed line (by simp [hp])
      · exact deserialize_malformed line (by simp [hp])
      · exact deserialize_malformed line (by simp [hp])
      · exact deserialize_malformed line (by simp [hp])
      · cases hs : stoi p0 with
        | none => rw [deserialize_parts _ _ _ _ _ hp, hs]
        | some i =>
          exact absurd ⟨p0, p1, p2, p3, hp, by rw [hs]; rfl⟩ hne
      · exact deserialize_malformed line (by simp [hp])
  · intro p0 p1 p2 p3 i hp hi
    rw [deserialize_parts _ _ _ _ _ hp, hi]

/-- C6, witness: the success clause at the concrete line `7, x, y, Yes`. -/
theorem deserialize_error_spec_witness :
    Book.deserialize (str "7, x, y, Yes") = some ⟨7, ['x'], ['y'], true⟩ := by
  exact (deserialize_error_spec (str "7, x, y, Yes")).2
    (str "7") ['x'] ['y'] yesTok 7 (by decide) (by decide)

/-- C7: `setStatus` scans for the first record with the given id. When the
loaded collection splits as `pre ++ b :: post` with no match in `pre` and
`b.id = id`, the call sets `b`'s flag, rewrites the file from the updated
collection and returns true; when no loaded record matches, it returns false
and the file (hence the collection) is unchanged. -/
theorem updateBookStatus_spec (id : Int) (co : Bool) (lines : List Str) :
    ((∀ b ∈ loadBooks lines, b.id ≠ id) → updateBookStatus id co lines = (false, lines)) ∧
    (∀ pre b post, loadBooks lines = pre ++ b :: post → (∀ x ∈ pre, x.id ≠ id) → b.id = id →
      updateBookStatus id co lines =
        (true, overwriteDatabase (pre ++ { b with checkedOut := co } :: post))) := by
  constructor
  · intro h
    unfold updateBookStatus
    rw [setFirst_not_found id co _ h]
    rfl
  · intro pre b post heq hpre hb
    unfold updateBookStatus
    rw [heq, setFirst_found id co pre b post hpre hb]
    rfl

/-- C7, witness: setting id 2 in a two-record store updates exactly that
record and rewrites; setting the absent id 9 returns false and leaves the
file unchanged. -/
theorem updateBookStatus_spec_witness :
    updateBookStatus 2 true [str "1, a, b, No", str "2, c, d, No"] =
      (true, overwriteDatabase [⟨1, ['a'], ['b'], false⟩, ⟨2, ['c'], ['d'], true⟩]) ∧
    updateBookStatus 9 true [str "1, a, b, No", str "2, c, d, No"] =
      (false, [str "1, a, b, No", str "2, c, d, No"]) :=
  ⟨(updateBookStatus_spec 2 true [str "1, a, b, No", str "2, c, d, No"]).2
      [⟨1, ['a'], ['b'], false⟩] ⟨2, ['c'], ['d'], false⟩ [] (by decide) (by decide) (by decide),
   (updateBookStatus_spec 9 true [str "1, a, b, No", str "2, c, d, No"]).1 (by decide)⟩

/-- C8: `deleteById` removes every loaded record with the given id: when at
least one matches, the kept records are a subsequence of the collection
(order preserved), contain no match, contain every non-match, and the call
returns true and rewrites the file from them; when none matches, it returns
false and the file is unchanged. -/
theorem deleteBookById_spec (id : Int) (lines : List Str) :
    ((∀ b ∈ loadBooks lines, b.id ≠ id) → deleteBookById id lines = (false, lines)) ∧
    ((∃ b ∈ loadBooks lines, b.id = id) →
      ∃ kept : List Book, kept.Sublist (loadBooks lines) ∧ (∀ b ∈ kept, b.id ≠ id) ∧
        (∀ b ∈ loadBooks lines, b.id ≠ id → b ∈ kept) ∧
        deleteBookById id lines = (true, overwriteDatabase kept)) := by
  constructor
  · intro h
    unfold deleteBookById
    rw [if_neg]
    simp only [List.any_eq_true, decide_eq_true_eq]
    rintro ⟨b, hb, he⟩
    exact h b hb he
  · rintro ⟨b, hb, he⟩
    refine ⟨(loadBooks lines).filter (fun b => decide (¬b.id = id)),
      List.filter_sublist _, ?_, ?_, ?_⟩
    · intro x hx
      have := (List.mem_filter.1 hx).2
      simpa using this
    · intro x hx hne
      exact List.mem_filter.2 ⟨hx, by simpa using hne⟩
    · unfold deleteBookById
      rw [if_pos (List.any_eq_true.2 ⟨b, hb, by simpa using he⟩)]

/-- C8, witness: deleting id 5 from a two-record store removes exactly that
record, returns true, and rewrites from the survivors. -/
theorem deleteBookById_spec_witness :
    ∃ kept : List Book, kept.Sublist (loadBooks [str "5, p, q, Yes", str "6, r, s, No"]) ∧
      (∀ b ∈ kept, b.id ≠ 5) ∧
      (∀ b ∈ loadBooks [str "5, p, q, Yes", str "6, r, s, No"], b.id ≠ 5 → b ∈ kept) ∧
      deleteBookById 5 [str "5, p, q, Yes", str "6, r, s, No"] =
        (true, overwriteDatabase kept) :=
  (deleteBookById_spec 5 [str "5, p, q, Yes", str "6, r, s, No"]).2
    ⟨⟨5, ['p'], ['q'], true⟩, by decide, by decide⟩

/-- C9: seeding populates the backing file iff it is missing or exactly zero
bytes (`fileIsEmpty`); a file holding only a blank line (one newline byte) is
not re-seeded. When it seeds, loading the seeded content yields exactly the
19 catalog records, with ids 1..19 assigned sequentially in catalog order and
`checkedOut = false` throughout. -/
theorem seedLibrary_spec :
    (∀ f, fileIsEmpty f = true ↔ (f = none ∨ f = some [])) ∧
    (∀ f, fileIsEmpty f = false → seedLibrary f = f) ∧
    (∀ f, fileIsEmpty f = true → seedLibrary f = some seedContent) ∧
    seedLibrary (some ['\n']) = some ['\n'] ∧
    loadBooks (fileLines seedContent) = seedBooks ∧
    seedBooks.map Book.id = (List.range 19).map (fun n => (n : Int) + 1) ∧
    (∀ b ∈ seedBooks, b.checkedOut = false) ∧
    seedBooks.length = 19 := by
  refine ⟨?_, ?_, ?_, by decide, by decide, by decide, by decide, by decide⟩
  · intro f
    cases f with
    | none => simp [fileIsEmpty]
    | some c => simp [fileIsEmpty]
  · intro f hf
    unfold seedLibrary
    rw [hf]
    rfl
  · intro f hf
    unfold seedLibrary
    rw [hf]
    rfl

/-- C9, witness: a missing file is seeded; a nonempty one-byte file is not. -/
theorem seedLibrary_spec_witness :
    seedLibrary none = some seedContent ∧ seedLibrary (some ['x']) = some ['x'] :=
  ⟨seedLibrary_spec.2.2.1 none (by decide), seedLibrary_spec.2.1 (some ['x']) (by decide)⟩

end LibrarySys
